import Mathlib

/-!
Verification of the job execution and aggregation engine of `raw-to-img`.

The Rust sources (`src/main.rs`, `src/job.rs`, `src/statistics.rs`) are
shallowly embedded below: paths become lists of OS-string components,
durations become natural numbers, and every file-system or codec call a
function performs is an oracle supplied by the environment (a `World`),
one entry per call site, so that racy interleavings of the underlying
file system are representable.
-/

set_option maxHeartbeats 1000000
set_option linter.unusedVariables false

namespace RawToImg

/-- One character of an operating-system string: `some c` is a valid
Unicode character, `none` marks a byte that is not valid UTF-8. -/
abbrev OsChar := Option Char

/-- An operating-system string (`OsStr`): a sequence of characters in
which invalid UTF-8 portions appear as `none` entries. -/
abbrev OsStr := List OsChar

/-- A file-system path, as the list of its components. -/
abbrev Path := List OsStr

/-- Embed a Lean string as a (valid UTF-8) OS string. -/
def strToOs (s : String) : OsStr := s.data.map some

/-- Recover the characters of an OS string when every entry is valid. -/
def osChars : OsStr → Option (List Char)
  | [] => some []
  | some c :: rest => (osChars rest).map (fun cs => c :: cs)
  | none :: _ => none

/-- `OsStr::to_str`: `some` exactly when the string is valid UTF-8. -/
def osToStr (n : OsStr) : Option String := (osChars n).map String.mk

/-- `to_string_lossy` on one component: invalid bytes print as U+FFFD. -/
def osLossy (n : OsStr) : String :=
  String.mk (n.map (fun c => c.getD (Char.ofNat 0xFFFD)))

/-- `Path::to_string_lossy`, components joined by `/`. -/
def pathLossy (p : Path) : String := String.intercalate "/" (p.map osLossy)

/-- `Path::parent`: drop the last component; `none` for the empty path. -/
def pathParent (p : Path) : Option Path :=
  if p.isEmpty then none else some p.dropLast

/-- `Path::file_name`: the last component. -/
def pathFileName (p : Path) : Option OsStr := p.getLast?

/-- Split a file name at its last dot: `some (before, after)`, or `none`
when the name contains no dot. -/
def splitAtLastDot : OsStr → Option (OsStr × OsStr)
  | [] => none
  | c :: rest =>
    match splitAtLastDot rest with
    | some (b, a) => some (c :: b, a)
    | none => if c = some '.' then some ([], rest) else none

/-- `Path::file_stem`: the file name up to its last dot; the whole name
when there is no dot or the only dot is the leading character. -/
def pathFileStem (p : Path) : Option OsStr :=
  (pathFileName p).map (fun n =>
    match splitAtLastDot n with
    | some (b, _) => if b = [] then n else b
    | none => n)

/-- `Path::extension`: the file name past its last dot; `none` when there
is no dot or the only dot is the leading character. -/
def pathExtension (p : Path) : Option OsStr :=
  (pathFileName p).bind (fun n =>
    match splitAtLastDot n with
    | some (b, a) => if b = [] then none else some a
    | none => none)

/-- The extension of a path as a UTF-8 string, when both present and valid. -/
def extUtf (p : Path) : Option String := (pathExtension p).bind osToStr

/-- `RAW_EXTENSIONS` from `main.rs`. -/
def RAW_EXTENSIONS : List String := ["CR2"]

/-- `IMG_EXTENSIONS` from `main.rs`. -/
def IMG_EXTENSIONS : List String :=
  ["jpg", "jpeg", "png", "tiff", "JPG", "JPEG", "PNG", "TIFF"]

inductive FileKind
  | Raw | Image | Other
deriving DecidableEq

/-- `file_kind` from `main.rs`: classify a path by its extension. -/
def file_kind (path : Path) : FileKind :=
  match pathExtension path with
  | some ext0 =>
    match osToStr ext0 with
    | some ext =>
      if RAW_EXTENSIONS.any (fun e => e == ext) then FileKind.Raw
      else if IMG_EXTENSIONS.any (fun e => e == ext) then FileKind.Image
      else FileKind.Other
    | none => FileKind.Other
  | none => FileKind.Other

/-- Decimal digits of `n`, most significant first, prepended to `acc`
(the rendering performed by `format!` on an integer).  `fuel` only bounds
the recursion; `natRepr` always passes enough. -/
def toDigitsCore : Nat → Nat → List Char → List Char
  | 0, _, acc => acc
  | fuel + 1, n, acc =>
    if n / 10 = 0 then Nat.digitChar (n % 10) :: acc
    else toDigitsCore fuel (n / 10) (Nat.digitChar (n % 10) :: acc)

/-- Decimal rendering of a natural number, as `format!` produces it. -/
def natRepr (n : Nat) : String := String.mk (toDigitsCore (n + 1) n [])

/-- The numeric value of a decimal digit string (proof support: a left
inverse of `natRepr`). -/
def digitsVal (cs : List Char) : Nat :=
  cs.foldl (fun a c => a * 10 + (c.toNat - 48)) 0

/-- The `i`-th candidate `parent/stem_i.ext` probed by `unused_path`
(the closure `new_path` over `extended_name` in `main.rs`). -/
def candidate (parent : Path) (name ext : String) (i : Nat) : Path :=
  parent ++ [strToOs (name ++ "_" ++ natRepr i ++ "." ++ ext)]

/-- The probe loop of `unused_path`: the first candidate, from index `i`
on, that does not exist in `fs`.  The Rust loop is unbounded; `fuel` only
bounds the recursion here, and `unused_path` passes enough fuel for the
`none` branch to be unreachable (`unusedFrom_spec` below). -/
def probeLoop (fs : List Path) (c : Nat → Path) : Nat → Nat → Option Path
  | _, 0 => none
  | i, fuel + 1 =>
    if c i ∈ fs then probeLoop fs c (i + 1) fuel else some (c i)

/-- The searching tail of `unused_path`, after parent, stem and extension
have been extracted.  On a finite file system `fs.length + 1` probes always
suffice, so this equals the unbounded Rust loop. -/
def unusedFrom (fs : List Path) (parent : Path) (name ext : String) :
    Except String Path :=
  match probeLoop fs (candidate parent name ext) 1 (fs.length + 1) with
  | some p => Except.ok p
  | none => Except.error "probe loop exhausted"

/-- The result of extracting the extension inside `unused_path`: a missing
extension becomes `""`, an invalid one is an error. -/
def extForUnused (p : Path) : Option String :=
  match pathExtension p with
  | some e => osToStr e
  | none => some ""

/-- `unused_path` from `main.rs`, over the list `fs` of existing paths. -/
def unused_path (fs : List Path) (orig_path : Path) : Except String Path :=
  match pathParent orig_path with
  | none => Except.error "Unable to find unused path"
  | some parent =>
    match pathFileStem orig_path with
    | none => Except.error "Unable to find unused path"
    | some stem =>
      match osToStr stem with
      | none => Except.error "Unable to find unused path"
      | some name =>
        match pathExtension orig_path with
        | some ext0 =>
          match osToStr ext0 with
          | none => Except.error "Unable to find unused path"
          | some ext => unusedFrom fs parent name ext
        | none => unusedFrom fs parent name ""

/-- Durations are modelled as natural numbers (e.g. nanoseconds). -/
abbrev Duration := Nat

/-- `StatisticsItem` from `statistics.rs`: a count and the recorded
durations of one category. -/
structure StatisticsItem where
  count : Nat
  times : List Duration
deriving DecidableEq

/-- `StatisticsItem::record`. -/
def StatisticsItem.record (s : StatisticsItem) (time : Duration) :
    StatisticsItem :=
  { count := s.count + 1, times := s.times ++ [time] }

/-- `StatisticsItem::inc`. -/
def StatisticsItem.inc (s : StatisticsItem) : StatisticsItem :=
  { s with count := s.count + 1 }

/-- `StatisticsItem::extend`: counts add, duration lists concatenate. -/
def StatisticsItem.extend (s other : StatisticsItem) : StatisticsItem :=
  { count := s.count + other.count, times := s.times ++ other.times }

/-- `Statistics` from `statistics.rs`: one item per category. -/
structure Statistics where
  encoded : StatisticsItem
  decoded : StatisticsItem
  copied : StatisticsItem
  moved : StatisticsItem
  ignored : StatisticsItem
  errors : StatisticsItem
  total : StatisticsItem
deriving DecidableEq

def emptyItem : StatisticsItem := ⟨0, []⟩

/-- `Statistics::default()`. -/
def emptyStats : Statistics :=
  ⟨emptyItem, emptyItem, emptyItem, emptyItem, emptyItem, emptyItem,
   emptyItem⟩

/-- `Statistics::extend`: category-wise `StatisticsItem::extend`. -/
def Statistics.extend (s other : Statistics) : Statistics :=
  { total := s.total.extend other.total,
    decoded := s.decoded.extend other.decoded,
    encoded := s.encoded.extend other.encoded,
    copied := s.copied.extend other.copied,
    moved := s.moved.extend other.moved,
    errors := s.errors.extend other.errors,
    ignored := s.ignored.extend other.ignored }

inductive UnparsableAction
  | Copy | Move | Ignore
deriving DecidableEq

inductive ParsableAction
  | Copy | Move | Ignore | Parse
deriving DecidableEq

inductive ExistingAction
  | Rename | Ignore
deriving DecidableEq

inductive CompressionType
  | Default | Fast | Best
deriving DecidableEq

inductive FilterType
  | NoFilter | Sub | Up | Avg | Paeth | Adaptive
deriving DecidableEq

inductive EncoderType
  | JpegEncoder (quality : Nat)
  | PngEncoder (compression : CompressionType) (filter : FilterType)
  | TiffEncoder
deriving DecidableEq

/-- `Job` from `job.rs`. -/
structure Job where
  input_file : Path
  output_file : Path
  on_raw : ParsableAction
  on_file : UnparsableAction
  on_image : UnparsableAction
  on_existing : ExistingAction
  encoder : EncoderType
  statistics : Statistics
deriving DecidableEq

/-- `Job::new`: the statistics field starts out at `default()`. -/
def Job.new (input_file output_file : Path) (on_raw : ParsableAction)
    (on_file on_image : UnparsableAction) (on_existing : ExistingAction)
    (encoder : EncoderType) : Job :=
  ⟨input_file, output_file, on_raw, on_file, on_image, on_existing, encoder,
   emptyStats⟩

deriving instance DecidableEq for Except

/-- The outcomes of the file-system and codec calls one `Job::run` makes,
supplied by the environment, one entry per call site.  Separate entries
model separate system calls, so file-system races (e.g. a file vanishing
between `metadata()` and `exists()`) are representable. -/
structure World where
  metaResult : Except String Bool
  parentExists : Bool
  mkdirResult : Except String Unit
  outputExists : Bool
  decodeResult : Option Duration
  encodeResult : Option Duration
  copyResult : Option Duration
  moveResult : Option Duration
deriving DecidableEq

/-- `copy` from `main.rs`: identical paths short-circuit to `None` before
any file operation; otherwise the `fs::copy` outcome decides. -/
def copy (w : World) (input_path output_path : Path) : Option Duration :=
  if input_path = output_path then none else w.copyResult

/-- `move_file` from `main.rs`: same identical-path short-circuit. -/
def move_file (w : World) (input_path output_path : Path) :
    Option Duration :=
  if input_path = output_path then none else w.moveResult

/-- `recode` from `main.rs`: decode, then encode; `None` as soon as one
stage fails. -/
def recode (w : World) (input_path output_path : Path)
    (encoder : EncoderType) : Option (Duration × Duration) :=
  match w.decodeResult with
  | none => none
  | some dtime =>
    match w.encodeResult with
    | none => none
    | some etime => some (dtime, etime)

/-- `Job::run` from `job.rs`.  Note that on the existing-output `Rename`
branch the Rust code increments `self.statistics.errors` and then discards
the statistics by returning `Err`, so only the error string survives. -/
def Job.run (j : Job) (w : World) : Except String Statistics :=
  match w.metaResult with
  | Except.error e => Except.error e
  | Except.ok isFile =>
    match (if (pathParent j.output_file).isSome ∧ w.parentExists = false
           then w.mkdirResult else Except.ok ()) with
    | Except.error e => Except.error e
    | Except.ok _ =>
      if isFile then
        if w.outputExists then
          match j.on_existing with
          | ExistingAction.Rename =>
            Except.error
              ("Could not find unused path for " ++ pathLossy j.output_file)
          | ExistingAction.Ignore =>
            Except.ok { j.statistics with ignored := j.statistics.ignored.inc }
        else
          match file_kind j.input_file with
          | FileKind.Raw =>
            match j.on_raw with
            | ParsableAction.Ignore =>
              Except.ok
                { j.statistics with ignored := j.statistics.ignored.inc }
            | ParsableAction.Parse =>
              match recode w j.input_file j.output_file j.encoder with
              | some (dtime, etime) =>
                Except.ok { j.statistics with
                  decoded := j.statistics.decoded.record dtime,
                  encoded := j.statistics.encoded.record etime }
              | none =>
                Except.ok
                  { j.statistics with errors := j.statistics.errors.inc }
            | ParsableAction.Copy =>
              match copy w j.input_file j.output_file with
              | some ctime =>
                Except.ok
                  { j.statistics with copied := j.statistics.copied.record ctime }
              | none =>
                Except.ok
                  { j.statistics with errors := j.statistics.errors.inc }
            | ParsableAction.Move =>
              match move_file w j.input_file j.output_file with
              | some mtime =>
                Except.ok
                  { j.statistics with moved := j.statistics.moved.record mtime }
              | none =>
                Except.ok
                  { j.statistics with errors := j.statistics.errors.inc }
          | FileKind.Image =>
            match j.on_image with
            | UnparsableAction.Ignore =>
              Except.ok
                { j.statistics with ignored := j.statistics.ignored.inc }
            | UnparsableAction.Copy =>
              match copy w j.input_file j.output_file with
              | some ctime =>
                Except.ok
                  { j.statistics with copied := j.statistics.copied.record ctime }
              | none =>
                Except.ok
                  { j.statistics with errors := j.statistics.errors.inc }
            | UnparsableAction.Move =>
              match move_file w j.input_file j.output_file with
              | some mtime =>
                Except.ok
                  { j.statistics with moved := j.statistics.moved.record mtime }
              | none =>
                Except.ok
                  { j.statistics with errors := j.statistics.errors.inc }
          | FileKind.Other =>
            match j.on_file with
            | UnparsableAction.Ignore =>
              Except.ok
                { j.statistics with ignored := j.statistics.ignored.inc }
            | UnparsableAction.Copy =>
              match copy w j.input_file j.output_file with
              | some ctime =>
                Except.ok
                  { j.statistics with copied := j.statistics.copied.record ctime }
              | none =>
                Except.ok
                  { j.statistics with errors := j.statistics.errors.inc }
            | UnparsableAction.Move =>
              match move_file w j.input_file j.output_file with
              | some mtime =>
                Except.ok
                  { j.statistics with moved := j.statistics.moved.record mtime }
              | none =>
                Except.ok
                  { j.statistics with errors := j.statistics.errors.inc }
      else
        Except.ok { j.statistics with ignored := j.statistics.ignored.inc }

/-- The existing-output handling performed by the resolver in `main.rs`
(lines 395-414), before a job is dispatched. -/
inductive Resolved
  | proceed (p : Path)
  | skipIgnored
deriving DecidableEq

/-- The resolver step of `main.rs`: when the computed output path exists,
`Rename` substitutes the result of the unused-path search (skipping the
file, with `ignored` incremented, when the search errors) and `Ignore`
skips the file. -/
def resolveExisting (fs : List Path) (existing : ExistingAction)
    (output_path : Path) : Resolved :=
  if output_path ∈ fs then
    match existing with
    | ExistingAction.Rename =>
      match unused_path fs output_path with
      | Except.ok p => Resolved.proceed p
      | Except.error _ => Resolved.skipIgnored
    | ExistingAction.Ignore => Resolved.skipIgnored
  else Resolved.proceed output_path

/-- The lifting of an `UnparsableAction` into a `ParsableAction`. -/
def liftAction : UnparsableAction → ParsableAction
  | UnparsableAction.Copy => ParsableAction.Copy
  | UnparsableAction.Move => ParsableAction.Move
  | UnparsableAction.Ignore => ParsableAction.Ignore

/-- The action the `(file_kind, policy)` dispatch table of `Job::run`
selects for a job's input file. -/
def resolvedAction (j : Job) : ParsableAction :=
  match file_kind j.input_file with
  | FileKind.Raw => j.on_raw
  | FileKind.Image => liftAction j.on_image
  | FileKind.Other => liftAction j.on_file

/-- The directory-creation step of `Job::run` succeeds in world `w`. -/
def dirStepOk (j : Job) (w : World) : Prop :=
  ((pathParent j.output_file).isSome ∧ w.parentExists = false) →
    w.mkdirResult = Except.ok ()

/-- Modelled from the spec: the scheduler's collection step (§4.4, §7),
absent from `src/` — an `Ok` delta is merged with `Statistics::extend`; a
failed job increments `errors` in the aggregate and the run continues. -/
def collect (agg : Statistics) (r : Except String Statistics) : Statistics :=
  match r with
  | Except.ok s => agg.extend s
  | Except.error _ => { agg with errors := agg.errors.inc }

/-- Modelled from the spec: record one wall-clock sample in the aggregate's
`total` category (§4.4). -/
def recordTotal (s : Statistics) (gap : Duration) : Statistics :=
  { s with total := s.total.record gap }

/-- Modelled from the spec: one scheduler step (§4.4), absent from `src/` —
merge a delivered job delta, then record the wall-clock gap since the
previous delivery into `total`. -/
def schedStep (agg : Statistics) (x : Statistics × Duration) : Statistics :=
  recordTotal (agg.extend x.1) x.2

/-- Modelled from the spec: the scheduler's fold of delivered per-job
deltas (each paired with its wall-clock gap) into one aggregate (§4.4),
absent from `src/`.  Sequential mode delivers in input order; pooled mode
delivers the same deltas in completion order — a permutation — with its
own gaps. -/
def schedRun (items : List (Statistics × Duration)) : Statistics :=
  items.foldl schedStep emptyStats

/-- Agreement of two statistics items on the count and on the multiset of
recorded durations. -/
def itemEquiv (a b : StatisticsItem) : Prop :=
  a.count = b.count ∧
    (a.times : Multiset Duration) = (b.times : Multiset Duration)

/-- Category-wise agreement on counts and duration multisets. -/
def statEquiv (a b : Statistics) : Prop :=
  itemEquiv a.encoded b.encoded ∧ itemEquiv a.decoded b.decoded ∧
  itemEquiv a.copied b.copied ∧ itemEquiv a.moved b.moved ∧
  itemEquiv a.ignored b.ignored ∧ itemEquiv a.errors b.errors ∧
  itemEquiv a.total b.total

/-- Agreement on everything except `total`'s individual samples: all seven
counts equal, and the duration multisets of the six non-`total` categories
equal. -/
def statEquivExceptTotal (a b : Statistics) : Prop :=
  itemEquiv a.encoded b.encoded ∧ itemEquiv a.decoded b.decoded ∧
  itemEquiv a.copied b.copied ∧ itemEquiv a.moved b.moved ∧
  itemEquiv a.ignored b.ignored ∧ itemEquiv a.errors b.errors ∧
  a.total.count = b.total.count

instance (a b : StatisticsItem) : Decidable (itemEquiv a b) := by
  unfold itemEquiv; infer_instance

instance (a b : Statistics) : Decidable (statEquiv a b) := by
  unfold statEquiv; infer_instance

instance (a b : Statistics) : Decidable (statEquivExceptTotal a b) := by
  unfold statEquivExceptTotal; infer_instance

instance (j : Job) (w : World) : Decidable (dirStepOk j w) := by
  unfold dirStepOk; infer_instance

/-- The statistics of a job that only incremented `ignored`. -/
def ignoredOne : Statistics := { emptyStats with ignored := emptyItem.inc }

/-- The statistics of a job that only incremented `errors`. -/
def errorsOne : Statistics := { emptyStats with errors := emptyItem.inc }

/-- The statistics of a job that only recorded one `copied` duration. -/
def copiedOne (t : Duration) : Statistics :=
  { emptyStats with copied := emptyItem.record t }

/-- The statistics of a job that only recorded one `moved` duration. -/
def movedOne (t : Duration) : Statistics :=
  { emptyStats with moved := emptyItem.record t }

/-- The statistics of a job that recorded one `decoded` and one `encoded`
duration. -/
def recodedOne (d e : Duration) : Statistics :=
  { emptyStats with decoded := emptyItem.record d,
                    encoded := emptyItem.record e }

/-- Exactly one action category incremented relative to empty statistics
(`decoded` and `encoded` moving together as a pair). -/
def exactlyOne (s : Statistics) : Prop :=
  s = ignoredOne ∨ s = errorsOne ∨ (∃ t, s = copiedOne t) ∨
    (∃ t, s = movedOne t) ∨ (∃ d e, s = recodedOne d e)

/-! Section: Claim C1: extension classification -/

/-- C1 counterexample: classification is NOT case-insensitive.  The paths
`a.cr2` and `a.CR2` have extensions that differ only in letter case
(`"cr2"` is the lower-casing of `"CR2"`), yet `file_kind` classifies the
first as `Other` and the second as `Raw`. -/
theorem c1_counterexample :
    "CR2".data.map Char.toLower = "cr2".data ∧
    extUtf [strToOs "a.cr2"] = some "cr2" ∧
    extUtf [strToOs "a.CR2"] = some "CR2" ∧
    file_kind [strToOs "a.cr2"] = FileKind.Other ∧
    file_kind [strToOs "a.CR2"] = FileKind.Raw := by
  refine ⟨by decide, rfl, rfl, rfl, rfl⟩

/-- C1 amended: classification matches the extension by exact,
case-sensitive string comparison: exactly `"CR2"` is `Raw`; exactly one of
the eight configured image strings (lower- and upper-case variants of
jpg/jpeg/png/tiff) is `Image`; everything else — a missing extension, an
extension that is not valid UTF-8, or any other casing — is `Other`. -/
theorem c1_amended (p : Path) :
    (file_kind p = FileKind.Raw ↔ extUtf p = some "CR2") ∧
    (file_kind p = FileKind.Image ↔
      ∃ e, extUtf p = some e ∧ e ∈ IMG_EXTENSIONS) ∧
    (file_kind p = FileKind.Other ↔
      ∀ e, extUtf p = some e → e ∉ RAW_EXTENSIONS ∧ e ∉ IMG_EXTENSIONS) := by
  unfold file_kind extUtf
  cases hx : pathExtension p with
  | none => simp
  | some e0 =>
    cases hs : osToStr e0 with
    | none => simp [hs]
    | some ext =>
      simp only [hs, Option.some_bind, Option.some.injEq]
      by_cases h1 : RAW_EXTENSIONS.any (fun e => e == ext) = true
      · have he : ext = "CR2" := by
          have := h1
          simp only [RAW_EXTENSIONS, List.any_cons, List.any_nil,
            Bool.or_false, beq_iff_eq] at this
          exact this.symm
        subst he
        simp [RAW_EXTENSIONS, IMG_EXTENSIONS, h1]
      · have he : ¬ ext = "CR2" := by
          intro h
          apply h1
          simp [RAW_EXTENSIONS, h]
        rw [if_neg h1]
        by_cases h2 : IMG_EXTENSIONS.any (fun e => e == ext) = true
        · have hm : ext ∈ IMG_EXTENSIONS := by
            have := h2
            simp only [List.any_eq_true, beq_iff_eq] at this
            obtain ⟨x, hx1, hx2⟩ := this
            exact hx2 ▸ hx1
          rw [if_pos h2]
          refine ⟨⟨fun h => FileKind.noConfusion h, fun h => absurd h he⟩,
            ?_, ?_⟩
          · exact ⟨fun _ => ⟨ext, rfl, hm⟩, fun _ => rfl⟩
          · constructor
            · intro h; exact FileKind.noConfusion h
            · intro h
              exact absurd hm (h ext rfl).2
        · have hm : ext ∉ IMG_EXTENSIONS := by
            intro h
            apply h2
            simp only [List.any_eq_true, beq_iff_eq]
            exact ⟨ext, h, rfl⟩
          rw [if_neg h2]
          refine ⟨⟨fun h => FileKind.noConfusion h, fun h => absurd h he⟩,
            ?_, ?_⟩
          · constructor
            · intro h; exact FileKind.noConfusion h
            · rintro ⟨e, rfl, hmem⟩
              exact absurd hmem hm
          · refine ⟨fun _ => ?_, fun _ => rfl⟩
            rintro e rfl
            refine ⟨?_, hm⟩
            intro hmem
            apply he
            simpa [RAW_EXTENSIONS] using hmem

/-- C1 amended, witnessed at a concrete path: `photo.CR2` classifies `Raw`. -/
theorem c1_amended_witness :
    file_kind [strToOs "photo.CR2"] = FileKind.Raw ↔
      extUtf [strToOs "photo.CR2"] = some "CR2" :=
  (c1_amended [strToOs "photo.CR2"]).1

/-! Section: Claim C4: statistics merge algebra -/

/-- C4: `Statistics::extend` is associative on the nose, and commutative
up to per-category counts and duration multisets. -/
theorem c4_extend_assoc_comm (A B C : Statistics) :
    (A.extend B).extend C = A.extend (B.extend C) ∧
      statEquiv (A.extend B) (B.extend A) := by
  constructor
  · simp [Statistics.extend, StatisticsItem.extend, Nat.add_assoc,
      List.append_assoc]
  · refine ⟨?_, ?_, ?_, ?_, ?_, ?_, ?_⟩ <;>
      exact ⟨Nat.add_comm _ _,
        (Multiset.coe_eq_coe).mpr List.perm_append_comm⟩

/-- C4, witnessed at concrete statistics values. -/
theorem c4_extend_assoc_comm_witness :
    ((copiedOne 3).extend errorsOne).extend ignoredOne =
        (copiedOne 3).extend (errorsOne.extend ignoredOne) ∧
      statEquiv ((copiedOne 3).extend errorsOne)
        (errorsOne.extend (copiedOne 3)) :=
  c4_extend_assoc_comm (copiedOne 3) errorsOne ignoredOne

/-! Section: The unused-path search: supporting lemmas -/

theorem toDigitsCore_append (fuel : Nat) :
    ∀ (n : Nat) (acc : List Char),
      toDigitsCore fuel n acc = toDigitsCore fuel n [] ++ acc := by
  induction fuel with
  | zero => intro n acc; rfl
  | succ f ih =>
    intro n acc
    simp only [toDigitsCore]
    by_cases h : n / 10 = 0
    · simp [h]
    · rw [if_neg h, if_neg h, ih (n / 10) (Nat.digitChar (n % 10) :: acc),
        ih (n / 10) [Nat.digitChar (n % 10)], List.append_assoc]
      rfl

theorem digitsVal_append_singleton (xs : List Char) (c : Char) :
    digitsVal (xs ++ [c]) = digitsVal xs * 10 + (c.toNat - 48) := by
  simp [digitsVal, List.foldl_append]

theorem digitChar_sub : ∀ d, d < 10 → (Nat.digitChar d).toNat - 48 = d := by
  decide

theorem toDigitsCore_val :
    ∀ (fuel n : Nat), n < 10 ^ fuel →
      digitsVal (toDigitsCore fuel n []) = n := by
  intro fuel
  induction fuel with
  | zero =>
    intro n h
    have hn : n = 0 := by simpa using h
    subst hn; rfl
  | succ f ih =>
    intro n h
    simp only [toDigitsCore]
    by_cases h0 : n / 10 = 0
    · rw [if_pos h0]
      have hn : n < 10 := (Nat.div_eq_zero_iff (by norm_num)).mp h0
      show digitsVal ([] ++ [Nat.digitChar (n % 10)]) = n
      rw [digitsVal_append_singleton,
        digitChar_sub _ (Nat.mod_lt _ (by norm_num))]
      simp [digitsVal]
      omega
    · rw [if_neg h0, toDigitsCore_append, digitsVal_append_singleton]
      have hdiv : n / 10 < 10 ^ f := by
        rw [Nat.div_lt_iff_lt_mul (by norm_num)]
        calc n < 10 ^ (f + 1) := h
          _ = 10 ^ f * 10 := by ring
      rw [ih (n / 10) hdiv, digitChar_sub _ (Nat.mod_lt _ (by norm_num))]
      omega

theorem natRepr_injective : Function.Injective natRepr := by
  intro m n h
  have hd : toDigitsCore (m + 1) m [] = toDigitsCore (n + 1) n [] :=
    congrArg String.data h
  have hb : ∀ a : Nat, a < 10 ^ (a + 1) := by
    intro a
    calc a < 10 ^ a := Nat.lt_pow_self (by norm_num) a
      _ ≤ 10 ^ (a + 1) := Nat.pow_le_pow_right (by norm_num) (Nat.le_succ a)
  have hm := toDigitsCore_val (m + 1) m (hb m)
  have hn := toDigitsCore_val (n + 1) n (hb n)
  rw [← hm, ← hn, hd]

theorem strToOs_injective : Function.Injective strToOs := by
  intro a b h
  apply String.ext
  exact List.map_injective_iff.mpr (Option.some_injective Char) h

theorem candidate_injective (parent : Path) (name ext : String) :
    Function.Injective (candidate parent name ext) := by
  intro i j h
  unfold candidate at h
  have h1 := List.append_cancel_left h
  have h2 : strToOs (name ++ "_" ++ natRepr i ++ "." ++ ext) =
      strToOs (name ++ "_" ++ natRepr j ++ "." ++ ext) := by
    simpa using h1
  have h3 := congrArg String.data (strToOs_injective h2)
  simp only [String.data_append, List.append_assoc] at h3
  have h4 := List.append_cancel_left (List.append_cancel_left h3)
  have h5 := List.append_cancel_right h4
  exact natRepr_injective (String.ext h5)

theorem exists_unused (fs : List Path) (c : Nat → Path)
    (hc : Function.Injective c) (s : Nat) :
    ∃ k, k ≤ fs.length ∧ c (s + k) ∉ fs := by
  by_contra hcon
  push_neg at hcon
  have hinj : Function.Injective (fun k => c (s + k)) := by
    intro a b hab
    have := hc hab
    omega
  have hnodup :
      ((List.range (fs.length + 1)).map (fun k => c (s + k))).Nodup :=
    (List.nodup_range _).map hinj
  have hsub :
      ((List.range (fs.length + 1)).map (fun k => c (s + k))) ⊆ fs := by
    intro x hx
    simp only [List.mem_map, List.mem_range] at hx
    obtain ⟨k, hk, rfl⟩ := hx
    exact hcon k (by omega)
  have hle := (hnodup.subperm hsub).length_le
  simp only [List.length_map, List.length_range] at hle
  omega

theorem probeLoop_eq_first (fs : List Path) (c : Nat → Path) :
    ∀ (fuel i k : Nat), k < fuel → c (i + k) ∉ fs →
      (∀ m, m < k → c (i + m) ∈ fs) →
      probeLoop fs c i fuel = some (c (i + k)) := by
  intro fuel
  induction fuel with
  | zero =>
    intro i k hk _ _
    exact absurd hk (Nat.not_lt_zero k)
  | succ f ih =>
    intro i k hk hfree hmem
    simp only [probeLoop]
    by_cases h0 : c i ∈ fs
    · rw [if_pos h0]
      cases k with
      | zero => exact absurd h0 (by simpa using hfree)
      | succ a =>
        rw [show i + (a + 1) = (i + 1) + a from by omega]
        apply ih
        · omega
        · rw [show (i + 1) + a = i + (a + 1) from by omega]
          exact hfree
        · intro m hm
          rw [show (i + 1) + m = i + (m + 1) from by omega]
          exact hmem (m + 1) (by omega)
    · rw [if_neg h0]
      cases k with
      | zero => simp
      | succ a => exact absurd (by simpa using hmem 0 (Nat.succ_pos a)) h0

theorem unusedFrom_spec (fs : List Path) (parent : Path) (name ext : String) :
    ∃ k, 1 ≤ k ∧ candidate parent name ext k ∉ fs ∧
      (∀ m, 1 ≤ m → m < k → candidate parent name ext m ∈ fs) ∧
      unusedFrom fs parent name ext =
        Except.ok (candidate parent name ext k) := by
  obtain ⟨k0, hk0, hfree0⟩ :=
    exists_unused fs _ (candidate_injective parent name ext) 1
  have hex : ∃ k, candidate parent name ext (1 + k) ∉ fs := ⟨k0, hfree0⟩
  have hmin : ∀ m, m < Nat.find hex → candidate parent name ext (1 + m) ∈ fs :=
    fun m hm => not_not.mp (Nat.find_min hex hm)
  refine ⟨1 + Nat.find hex, by omega, Nat.find_spec hex, ?_, ?_⟩
  · intro m h1 h2
    have := hmin (m - 1) (by omega)
    rwa [show 1 + (m - 1) = m from by omega] at this
  · unfold unusedFrom
    rw [probeLoop_eq_first fs _ (fs.length + 1) 1 (Nat.find hex)
      (by have := Nat.find_min' hex hfree0; omega)
      (Nat.find_spec hex) hmin]

/-! Section: Claim C6: the unused-path search probes in increasing order -/

/-- C6: whenever parent, stem and extension extraction succeed, the
unused-path search returns `parent/stem_k.ext` for the LEAST `k ≥ 1` whose
candidate does not exist, i.e. it probes `stem_1`, `stem_2`, … in
increasing integer order and returns the first unused one. -/
theorem c6_unused_path_first (fs : List Path) (orig parent : Path)
    (stem : OsStr) (name ext : String)
    (hp : pathParent orig = some parent)
    (hs : pathFileStem orig = some stem)
    (hn : osToStr stem = some name)
    (he : extForUnused orig = some ext) :
    ∃ k, 1 ≤ k ∧ candidate parent name ext k ∉ fs ∧
      (∀ m, 1 ≤ m → m < k → candidate parent name ext m ∈ fs) ∧
      unused_path fs orig = Except.ok (candidate parent name ext k) := by
  have hrun : unused_path fs orig = unusedFrom fs parent name ext := by
    unfold extForUnused at he
    unfold unused_path
    cases hx : pathExtension orig with
    | none =>
      simp only [hx] at he
      injection he with he
      simp only [hp, hs, hn, hx, ← he]
    | some e0 =>
      simp only [hx] at he
      simp only [hp, hs, hn, hx, he]
  obtain ⟨k, h1, h2, h3, h4⟩ := unusedFrom_spec fs parent name ext
  exact ⟨k, h1, h2, h3, by rw [hrun]; exact h4⟩

/-- C6, witnessed at the spec's own example: with `a.jpg` and `a_1.jpg`
existing, the search returns `a_2.jpg`. -/
theorem c6_unused_path_first_witness :
    (pathParent [strToOs "a.jpg"] = some [] ∧
     pathFileStem [strToOs "a.jpg"] = some (strToOs "a") ∧
     osToStr (strToOs "a") = some "a" ∧
     extForUnused [strToOs "a.jpg"] = some "jpg" ∧
     candidate [] "a" "jpg" 2 = [strToOs "a_2.jpg"] ∧
     unused_path [[strToOs "a.jpg"], [strToOs "a_1.jpg"]] [strToOs "a.jpg"] =
       Except.ok [strToOs "a_2.jpg"]) ∧
    ∃ k, 1 ≤ k ∧
      candidate [] "a" "jpg" k ∉ [[strToOs "a.jpg"], [strToOs "a_1.jpg"]] ∧
      (∀ m, 1 ≤ m → m < k →
        candidate [] "a" "jpg" m ∈ [[strToOs "a.jpg"], [strToOs "a_1.jpg"]]) ∧
      unused_path [[strToOs "a.jpg"], [strToOs "a_1.jpg"]] [strToOs "a.jpg"] =
        Except.ok (candidate [] "a" "jpg" k) :=
  ⟨⟨rfl, rfl, rfl, rfl, rfl, by decide⟩,
   c6_unused_path_first _ _ _ _ _ _ rfl rfl rfl rfl⟩

/-! Section: Claim C7: termination of the unused-path search -/

/-- C7 counterexample: there is NO cap that turns an all-candidates-exist
file system into a `NoUnusedPath`-style failure.  For every purported cap
`cap`, the file system consisting exactly of candidates `a_1.jpg` …
`a_cap.jpg` makes every probed candidate up to the cap exist, yet the
search still succeeds (the code has no cap and simply probes further). -/
theorem c7_counterexample :
    ¬ ∃ cap : Nat, ∀ fs : List Path,
        (∀ i, 1 ≤ i → i ≤ cap → candidate [] "a" "jpg" i ∈ fs) →
        ∃ msg, unused_path fs [strToOs "a.jpg"] = Except.error msg := by
  rintro ⟨cap, h⟩
  have hmem : ∀ i, 1 ≤ i → i ≤ cap →
      candidate [] "a" "jpg" i ∈
        (List.range cap).map (fun k => candidate [] "a" "jpg" (k + 1)) := by
    intro i h1 h2
    simp only [List.mem_map, List.mem_range]
    exact ⟨i - 1, by omega, by rw [show i - 1 + 1 = i from by omega]⟩
  obtain ⟨msg, hmsg⟩ := h _ hmem
  have hrun : unused_path
      ((List.range cap).map (fun k => candidate [] "a" "jpg" (k + 1)))
      [strToOs "a.jpg"] =
      unusedFrom
        ((List.range cap).map (fun k => candidate [] "a" "jpg" (k + 1)))
        [] "a" "jpg" := rfl
  obtain ⟨k, _, _, _, hok⟩ := unusedFrom_spec
    ((List.range cap).map (fun k => candidate [] "a" "jpg" (k + 1)))
    [] "a" "jpg"
  rw [hrun, hok] at hmsg
  exact Except.noConfusion hmsg

/-- C7 amended: the search always terminates, but not because of a cap —
the code has none.  Candidate names are pairwise distinct, so on any
(finite) file system at most `fs.length` candidates exist and the loop
reaches an unused candidate; whenever parent, stem and extension
extraction succeed the search returns a path and never reports a
failure from exhaustion. -/
theorem c7_amended (fs : List Path) (orig parent : Path) (stem : OsStr)
    (name ext : String)
    (hp : pathParent orig = some parent)
    (hs : pathFileStem orig = some stem)
    (hn : osToStr stem = some name)
    (he : extForUnused orig = some ext) :
    ∃ p, unused_path fs orig = Except.ok p := by
  obtain ⟨k, _, _, _, h4⟩ :=
    c6_unused_path_first fs orig parent stem name ext hp hs hn he
  exact ⟨candidate parent name ext k, h4⟩

/-- C7 amended, witnessed on a file system where the original name and its
first candidate both exist. -/
theorem c7_amended_witness :
    (pathParent [strToOs "b.png"] = some [] ∧
     pathFileStem [strToOs "b.png"] = some (strToOs "b") ∧
     osToStr (strToOs "b") = some "b" ∧
     extForUnused [strToOs "b.png"] = some "png") ∧
    ∃ p, unused_path [[strToOs "b.png"], [strToOs "b_1.png"]]
        [strToOs "b.png"] = Except.ok p :=
  ⟨⟨rfl, rfl, rfl, rfl⟩,
   c7_amended [[strToOs "b.png"], [strToOs "b_1.png"]] _ _ _ _ _
     rfl rfl rfl rfl⟩

/-! Section: Claim C10: error conditions of the unused-path search -/

/-- C10: the unused-path search returns an error (instead of a candidate
path) whenever the original path has no parent, has no file stem, its stem
is not valid UTF-8, or its extension is present but not valid UTF-8. -/
theorem c10_error_conditions (fs : List Path) (orig : Path)
    (h : pathParent orig = none ∨ pathFileStem orig = none ∨
      (∃ stem, pathFileStem orig = some stem ∧ osToStr stem = none) ∨
      (∃ e, pathExtension orig = some e ∧ osToStr e = none)) :
    ∃ msg, unused_path fs orig = Except.error msg := by
  refine ⟨"Unable to find unused path", ?_⟩
  unfold unused_path
  cases hp : pathParent orig with
  | none => simp only [hp]
  | some parent =>
    cases hso : pathFileStem orig with
    | none => simp only [hp, hso]
    | some stem =>
      cases hno : osToStr stem with
      | none => simp only [hp, hso, hno]
      | some name =>
        rcases h with h | h | ⟨st, hst, hstn⟩ | ⟨e, he, hen⟩
        · rw [hp] at h; exact Option.noConfusion h
        · rw [hso] at h; exact Option.noConfusion h
        · rw [hso] at hst
          injection hst with hst
          rw [← hst] at hstn
          rw [hno] at hstn
          exact Option.noConfusion hstn
        · simp only [hp, hso, hno, he, hen]

/-- C10, witnessed at the empty path, which has no parent. -/
theorem c10_error_conditions_witness :
    (pathParent ([] : Path) = none) ∧
      ∃ msg, unused_path [] [] = Except.error msg :=
  ⟨rfl, c10_error_conditions [] [] (Or.inl rfl)⟩

/-! Section: Claim C5: exactly one category per successful job -/

/-- C5: whenever `Job::run` returns `Ok`, the returned statistics are the
job's initial (empty) statistics with exactly one of `ignored`, `errors`,
`copied`, `moved`, or the pair `decoded`/`encoded` incremented by one —
never more than one action category. -/
theorem c5_exactly_one (j : Job) (w : World) (s : Statistics)
    (hinit : j.statistics = emptyStats)
    (h : Job.run j w = Except.ok s) : exactlyOne s := by
  unfold exactlyOne
  unfold Job.run copy move_file recode at h
  rw [hinit] at h
  repeat' split at h
  all_goals first
    | exact Except.noConfusion h
    | (injection h with h; subst h;
       first
         | exact Or.inl rfl
         | exact Or.inr (Or.inl rfl)
         | exact Or.inr (Or.inr (Or.inl ⟨_, rfl⟩))
         | exact Or.inr (Or.inr (Or.inr (Or.inl ⟨_, rfl⟩)))
         | exact Or.inr (Or.inr (Or.inr (Or.inr ⟨_, _, rfl⟩))))

/-- C5, witnessed on an ignored `Other` file. -/
theorem c5_exactly_one_witness :
    ((Job.new [strToOs "x.txt"] [strToOs "y.txt"] ParsableAction.Parse
        UnparsableAction.Ignore UnparsableAction.Copy ExistingAction.Ignore
        EncoderType.TiffEncoder).statistics = emptyStats ∧
      Job.run (Job.new [strToOs "x.txt"] [strToOs "y.txt"]
          ParsableAction.Parse UnparsableAction.Ignore UnparsableAction.Copy
          ExistingAction.Ignore EncoderType.TiffEncoder)
        ⟨Except.ok true, true, Except.ok (), false, none, none, none, none⟩ =
        Except.ok ignoredOne) ∧
    exactlyOne ignoredOne :=
  ⟨⟨rfl, by decide⟩,
   c5_exactly_one
     (Job.new [strToOs "x.txt"] [strToOs "y.txt"] ParsableAction.Parse
       UnparsableAction.Ignore UnparsableAction.Copy ExistingAction.Ignore
       EncoderType.TiffEncoder)
     ⟨Except.ok true, true, Except.ok (), false, none, none, none, none⟩
     ignoredOne rfl (by decide)⟩

/-! Section: Claim C2: Rename policy inside Job::run -/

/-- C2 counterexample: a job whose output path exists under `Rename` fails
with the "Could not find unused path" error even though the unused-path
search would succeed on the same file system (`out_1.jpg` is free):
`Job::run` never invokes the search. -/
theorem c2_counterexample :
    ([strToOs "out.jpg"] : Path) ∈
      [[strToOs "in.txt"], [strToOs "out.jpg"]] ∧
    unused_path [[strToOs "in.txt"], [strToOs "out.jpg"]]
      [strToOs "out.jpg"] = Except.ok [strToOs "out_1.jpg"] ∧
    Job.run (Job.new [strToOs "in.txt"] [strToOs "out.jpg"]
        ParsableAction.Parse UnparsableAction.Copy UnparsableAction.Copy
        ExistingAction.Rename (EncoderType.JpegEncoder 90))
      ⟨Except.ok true, true, Except.ok (), true, none, none, none, none⟩ =
      Except.error "Could not find unused path for out.jpg" := by
  refine ⟨by decide, by decide, by decide⟩

/-- C2 amended: the unused-path search is invoked by the resolver in
`main` BEFORE a job runs (when the output exists under `Rename`, the
resolver substitutes the search's result and the job proceeds against the
alternate path); `Job::run` itself never searches — whenever its resolved
output path still exists under `Rename` it fails with the
"Could not find unused path" error unconditionally, for every file
system, even one on which the search would succeed. -/
theorem c2_amended (fs : List Path) (j : Job) (w : World)
    (hren : j.on_existing = ExistingAction.Rename)
    (hmeta : w.metaResult = Except.ok true)
    (hdir : dirStepOk j w)
    (hex : w.outputExists = true) :
    Job.run j w =
      Except.error
        ("Could not find unused path for " ++ pathLossy j.output_file) ∧
    (∀ p, j.output_file ∈ fs → unused_path fs j.output_file = Except.ok p →
      resolveExisting fs ExistingAction.Rename j.output_file =
        Resolved.proceed p) := by
  have hd : (if (pathParent j.output_file).isSome ∧ w.parentExists = false
      then w.mkdirResult else Except.ok ()) = Except.ok () := by
    split
    · exact hdir (by assumption)
    · rfl
  constructor
  · unfold Job.run
    simp [hmeta, hd, hex, hren]
  · intro p hmem hup
    unfold resolveExisting
    rw [if_pos hmem, hup]

/-- C2 amended, witnessed at a concrete job, world and file system. -/
theorem c2_amended_witness :
    ((Job.new [strToOs "i.png"] [strToOs "o.png"] ParsableAction.Parse
        UnparsableAction.Copy UnparsableAction.Copy ExistingAction.Rename
        EncoderType.TiffEncoder).on_existing = ExistingAction.Rename ∧
      (⟨Except.ok true, true, Except.ok (), true, none, none, none,
        none⟩ : World).metaResult = Except.ok true ∧
      dirStepOk (Job.new [strToOs "i.png"] [strToOs "o.png"]
          ParsableAction.Parse UnparsableAction.Copy UnparsableAction.Copy
          ExistingAction.Rename EncoderType.TiffEncoder)
        ⟨Except.ok true, true, Except.ok (), true, none, none, none, none⟩ ∧
      (⟨Except.ok true, true, Except.ok (), true, none, none, none,
        none⟩ : World).outputExists = true) ∧
    (Job.run (Job.new [strToOs "i.png"] [strToOs "o.png"]
        ParsableAction.Parse UnparsableAction.Copy UnparsableAction.Copy
        ExistingAction.Rename EncoderType.TiffEncoder)
      ⟨Except.ok true, true, Except.ok (), true, none, none, none, none⟩ =
      Except.error ("Could not find unused path for " ++
        pathLossy [strToOs "o.png"]) ∧
    (∀ p, ([strToOs "o.png"] : Path) ∈ [[strToOs "o.png"]] →
      unused_path [[strToOs "o.png"]] [strToOs "o.png"] = Except.ok p →
      resolveExisting [[strToOs "o.png"]] ExistingAction.Rename
        [strToOs "o.png"] = Resolved.proceed p)) :=
  ⟨⟨rfl, rfl, fun _ => rfl, rfl⟩,
   c2_amended [[strToOs "o.png"]] _ _ rfl rfl (fun _ => rfl) rfl⟩

/-! Section: Claim C3: identical input and output paths -/

/-- C3 counterexample: a Copy job whose input and output paths coincide is
counted as an ERROR, not as a silent no-op: the `copy` helper returns
`None`, and `Job::run` maps every `None` to an `errors` increment.  The
world models the race in which the file vanishes between the `metadata()`
call and the `exists()` check, which is the only way this branch is
reached (each file-system query is a separate call). -/
theorem c3_counterexample :
    Job.run (Job.new [strToOs "n.txt"] [strToOs "n.txt"]
        ParsableAction.Parse UnparsableAction.Copy UnparsableAction.Copy
        ExistingAction.Ignore EncoderType.TiffEncoder)
      ⟨Except.ok true, true, Except.ok (), false, none, none, some 5,
        some 7⟩ = Except.ok errorsOne ∧
    errorsOne.errors.count = 1 ∧
    errorsOne.copied.count = 0 ∧ errorsOne.copied.times = [] ∧
    errorsOne.moved.count = 0 ∧ errorsOne.moved.times = [] := by
  refine ⟨by decide, rfl, rfl, rfl, rfl, rfl⟩

/-- C3 amended: when input equals output, `copy`/`move_file` perform no
file operation and return no duration — but `Job::run` treats that `None`
exactly like a failure: the job completes with `errors` incremented and
nothing recorded in `copied`/`moved`. -/
theorem c3_amended (j : Job) (w : World)
    (hmeta : w.metaResult = Except.ok true)
    (hdir : dirStepOk j w)
    (hex : w.outputExists = false)
    (heq : j.input_file = j.output_file)
    (hinit : j.statistics = emptyStats)
    (hact : resolvedAction j = ParsableAction.Copy ∨
      resolvedAction j = ParsableAction.Move) :
    Job.run j w = Except.ok errorsOne := by
  have hd : (if (pathParent j.output_file).isSome ∧ w.parentExists = false
      then w.mkdirResult else Except.ok ()) = Except.ok () := by
    split
    · exact hdir (by assumption)
    · rfl
  unfold resolvedAction at hact
  unfold Job.run copy move_file
  cases hfk : file_kind j.input_file with
  | Raw =>
    rw [hfk] at hact
    cases hor : j.on_raw with
    | Copy => simp [hinit, hmeta, hd, hex, hfk, hor, heq, errorsOne, emptyStats]
    | Move => simp [hinit, hmeta, hd, hex, hfk, hor, heq, errorsOne, emptyStats]
    | Ignore =>
      rw [hor] at hact
      rcases hact with h | h <;> exact ParsableAction.noConfusion h
    | Parse =>
      rw [hor] at hact
      rcases hact with h | h <;> exact ParsableAction.noConfusion h
  | Image =>
    rw [hfk] at hact
    cases hoi : j.on_image with
    | Copy => simp [hinit, hmeta, hd, hex, hfk, hoi, heq, errorsOne, emptyStats]
    | Move => simp [hinit, hmeta, hd, hex, hfk, hoi, heq, errorsOne, emptyStats]
    | Ignore =>
      rw [hoi] at hact
      rcases hact with h | h <;> simp [liftAction] at h
  | Other =>
    rw [hfk] at hact
    cases hof : j.on_file with
    | Copy => simp [hinit, hmeta, hd, hex, hfk, hof, heq, errorsOne, emptyStats]
    | Move => simp [hinit, hmeta, hd, hex, hfk, hof, heq, errorsOne, emptyStats]
    | Ignore =>
      rw [hof] at hact
      rcases hact with h | h <;> simp [liftAction] at h

/-- C3 amended, witnessed at a concrete Move job with identical paths. -/
theorem c3_amended_witness :
    ((⟨Except.ok true, true, Except.ok (), false, none, none, some 4,
        some 6⟩ : World).metaResult = Except.ok true ∧
      (⟨Except.ok true, true, Except.ok (), false, none, none, some 4,
        some 6⟩ : World).outputExists = false ∧
      (Job.new [strToOs "m.txt"] [strToOs "m.txt"] ParsableAction.Parse
        UnparsableAction.Move UnparsableAction.Copy ExistingAction.Ignore
        EncoderType.TiffEncoder).input_file =
        (Job.new [strToOs "m.txt"] [strToOs "m.txt"] ParsableAction.Parse
          UnparsableAction.Move UnparsableAction.Copy ExistingAction.Ignore
          EncoderType.TiffEncoder).output_file ∧
      resolvedAction (Job.new [strToOs "m.txt"] [strToOs "m.txt"]
        ParsableAction.Parse UnparsableAction.Move UnparsableAction.Copy
        ExistingAction.Ignore EncoderType.TiffEncoder) =
        ParsableAction.Move) ∧
    Job.run (Job.new [strToOs "m.txt"] [strToOs "m.txt"]
        ParsableAction.Parse UnparsableAction.Move UnparsableAction.Copy
        ExistingAction.Ignore EncoderType.TiffEncoder)
      ⟨Except.ok true, true, Except.ok (), false, none, none, some 4,
        some 6⟩ = Except.ok errorsOne :=
  ⟨⟨rfl, rfl, rfl, by decide⟩,
   c3_amended _ _ rfl (fun _ => rfl) rfl rfl rfl (Or.inr (by decide))⟩

/-! Section: Claim C8: metadata and directory failures increment errors -/

/-- C8: a metadata-read failure, or a failure to create the output's
parent directory chain, makes `Job::run` return `Err`, and the (spec-
modelled) collector turns that into exactly one `errors` increment of the
run's aggregate — just as in-job failures (decode, encode, copy, move) do;
the failure is job-level, not fatal. -/
theorem c8_errors_increment (j : Job) (w : World) (agg : Statistics)
    (h : (∃ e, w.metaResult = Except.error e) ∨
      ((pathParent j.output_file).isSome = true ∧ w.parentExists = false ∧
        ∃ e, w.mkdirResult = Except.error e)) :
    collect agg (Job.run j w) = { agg with errors := agg.errors.inc } := by
  have herr : ∃ msg, Job.run j w = Except.error msg := by
    rcases h with ⟨e, he⟩ | ⟨hp, hpe, e, he⟩
    · exact ⟨e, by unfold Job.run; rw [he]⟩
    · cases hm : w.metaResult with
      | error e2 => exact ⟨e2, by unfold Job.run; rw [hm]⟩
      | ok b =>
        refine ⟨e, ?_⟩
        unfold Job.run
        simp only [hm]
        rw [if_pos ⟨hp, hpe⟩, he]
  obtain ⟨msg, hmsg⟩ := herr
  rw [hmsg]
  rfl

/-- C8, witnessed at a job whose input metadata read fails. -/
theorem c8_errors_increment_witness :
    ((∃ e, (⟨Except.error "io error", true, Except.ok (), false, none,
        none, none, none⟩ : World).metaResult = Except.error e) ∨
      ((pathParent (Job.new [strToOs "p.txt"] [strToOs "q.txt"]
          ParsableAction.Parse UnparsableAction.Copy UnparsableAction.Copy
          ExistingAction.Ignore EncoderType.TiffEncoder).output_file).isSome
          = true ∧
        (⟨Except.error "io error", true, Except.ok (), false, none, none,
          none, none⟩ : World).parentExists = false ∧
        ∃ e, (⟨Except.error "io error", true, Except.ok (), false, none,
          none, none, none⟩ : World).mkdirResult = Except.error e)) ∧
    collect emptyStats (Job.run (Job.new [strToOs "p.txt"]
        [strToOs "q.txt"] ParsableAction.Parse UnparsableAction.Copy
        UnparsableAction.Copy ExistingAction.Ignore EncoderType.TiffEncoder)
      ⟨Except.error "io error", true, Except.ok (), false, none, none,
        none, none⟩) =
      { emptyStats with errors := emptyStats.errors.inc } :=
  ⟨Or.inl ⟨"io error", rfl⟩,
   c8_errors_increment _ _ emptyStats (Or.inl ⟨"io error", rfl⟩)⟩

/-! Section: Claim C9: sequential/pooled scheduler equivalence -/

theorem schedStep_proj_count (f : Statistics → StatisticsItem)
    (hf : ∀ a b, f (a.extend b) = (f a).extend (f b))
    (hr : ∀ s g, f (recordTotal s g) = f s) :
    ∀ (items : List (Statistics × Duration)) (acc : Statistics),
      (f (items.foldl schedStep acc)).count =
        (f acc).count + (items.map (fun x => (f x.1).count)).sum := by
  intro items
  induction items with
  | nil => intro acc; simp
  | cons x xs ih =>
    intro acc
    simp only [List.foldl_cons, List.map_cons, List.sum_cons]
    rw [ih (schedStep acc x)]
    unfold schedStep
    rw [hr, hf]
    simp only [StatisticsItem.extend]
    omega

theorem schedStep_proj_times (f : Statistics → StatisticsItem)
    (hf : ∀ a b, f (a.extend b) = (f a).extend (f b))
    (hr : ∀ s g, f (recordTotal s g) = f s) :
    ∀ (items : List (Statistics × Duration)) (acc : Statistics),
      ((f (items.foldl schedStep acc)).times : Multiset Duration) =
        ((f acc).times : Multiset Duration) +
          (items.map (fun x => ((f x.1).times : Multiset Duration))).sum := by
  intro items
  induction items with
  | nil => intro acc; simp
  | cons x xs ih =>
    intro acc
    simp only [List.foldl_cons, List.map_cons, List.sum_cons]
    rw [ih (schedStep acc x)]
    unfold schedStep
    rw [hr, hf]
    simp only [StatisticsItem.extend]
    rw [← Multiset.coe_add, add_assoc]

theorem schedStep_total_count :
    ∀ (items : List (Statistics × Duration)) (acc : Statistics),
      ((items.foldl schedStep acc).total).count =
        acc.total.count + (items.map (fun x => x.1.total.count)).sum +
          items.length := by
  intro items
  induction items with
  | nil => intro acc; simp
  | cons x xs ih =>
    intro acc
    simp only [List.foldl_cons, List.map_cons, List.sum_cons,
      List.length_cons]
    rw [ih (schedStep acc x)]
    unfold schedStep recordTotal
    simp only [Statistics.extend, StatisticsItem.extend,
      StatisticsItem.record]
    omega

theorem zip_map_fst (res : List Statistics) (g : List Duration)
    (hg : g.length = res.length) (h : Statistics → α) :
    ((res.zip g).map (fun x => h x.1)) = res.map h := by
  rw [show (fun x : Statistics × Duration => h x.1) = h ∘ Prod.fst from rfl,
    ← List.map_map, List.map_fst_zip]
  omega

theorem schedRun_item_equiv (f : Statistics → StatisticsItem)
    (hf : ∀ a b, f (a.extend b) = (f a).extend (f b))
    (hr : ∀ s g, f (recordTotal s g) = f s)
    (hz : f emptyStats = emptyItem)
    (res1 res2 : List Statistics) (g1 g2 : List Duration)
    (hperm : res1.Perm res2)
    (h1 : g1.length = res1.length) (h2 : g2.length = res2.length) :
    itemEquiv (f (schedRun (res1.zip g1))) (f (schedRun (res2.zip g2))) := by
  have e1 : (List.map (fun x => (f x.1).count) (res1.zip g1)) =
      res1.map (fun s => (f s).count) :=
    zip_map_fst res1 g1 h1 (fun s => (f s).count)
  have e2 : (List.map (fun x => (f x.1).count) (res2.zip g2)) =
      res2.map (fun s => (f s).count) :=
    zip_map_fst res2 g2 h2 (fun s => (f s).count)
  have e3 : (List.map (fun x => ((f x.1).times : Multiset Duration))
      (res1.zip g1)) =
      res1.map (fun s => ((f s).times : Multiset Duration)) :=
    zip_map_fst res1 g1 h1 (fun s => ((f s).times : Multiset Duration))
  have e4 : (List.map (fun x => ((f x.1).times : Multiset Duration))
      (res2.zip g2)) =
      res2.map (fun s => ((f s).times : Multiset Duration)) :=
    zip_map_fst res2 g2 h2 (fun s => ((f s).times : Multiset Duration))
  constructor
  · unfold schedRun
    rw [schedStep_proj_count f hf hr, schedStep_proj_count f hf hr, hz,
      e1, e2]
    exact congrArg (fun n => emptyItem.count + n)
      ((hperm.map (fun s => (f s).count)).sum_eq)
  · unfold schedRun
    rw [schedStep_proj_times f hf hr, schedStep_proj_times f hf hr, hz,
      e3, e4]
    exact congrArg (fun m => (emptyItem.times : Multiset Duration) + m)
      ((hperm.map (fun s => ((f s).times : Multiset Duration))).sum_eq)

/-- C9: running the same per-job deltas through the scheduler in input
order (sequential mode) and in any completion order (pooled mode, a
permutation, with its own wall-clock gaps) yields aggregates with
identical per-category counts and identical per-category duration
multisets; only `total`'s individual samples may differ, its count
included among the equal counts. -/
theorem c9_cross_mode (res1 res2 : List Statistics) (g1 g2 : List Duration)
    (hperm : res1.Perm res2)
    (h1 : g1.length = res1.length) (h2 : g2.length = res2.length) :
    statEquivExceptTotal (schedRun (res1.zip g1)) (schedRun (res2.zip g2)) := by
  refine ⟨?_, ?_, ?_, ?_, ?_, ?_, ?_⟩
  · exact schedRun_item_equiv (fun s => s.encoded) (fun a b => rfl)
      (fun s g => rfl) rfl res1 res2 g1 g2 hperm h1 h2
  · exact schedRun_item_equiv (fun s => s.decoded) (fun a b => rfl)
      (fun s g => rfl) rfl res1 res2 g1 g2 hperm h1 h2
  · exact schedRun_item_equiv (fun s => s.copied) (fun a b => rfl)
      (fun s g => rfl) rfl res1 res2 g1 g2 hperm h1 h2
  · exact schedRun_item_equiv (fun s => s.moved) (fun a b => rfl)
      (fun s g => rfl) rfl res1 res2 g1 g2 hperm h1 h2
  · exact schedRun_item_equiv (fun s => s.ignored) (fun a b => rfl)
      (fun s g => rfl) rfl res1 res2 g1 g2 hperm h1 h2
  · exact schedRun_item_equiv (fun s => s.errors) (fun a b => rfl)
      (fun s g => rfl) rfl res1 res2 g1 g2 hperm h1 h2
  · have e1 : (List.map (fun x => x.1.total.count) (res1.zip g1)) =
        res1.map (fun s => s.total.count) :=
      zip_map_fst res1 g1 h1 (fun s => s.total.count)
    have e2 : (List.map (fun x => x.1.total.count) (res2.zip g2)) =
        res2.map (fun s => s.total.count) :=
      zip_map_fst res2 g2 h2 (fun s => s.total.count)
    have hlen : (res1.zip g1).length = (res2.zip g2).length := by
      rw [List.length_zip, List.length_zip, h1, h2, hperm.length_eq]
    unfold schedRun
    rw [schedStep_total_count, schedStep_total_count, e1, e2, hlen,
      (hperm.map (fun s => s.total.count)).sum_eq]

/-- C9, witnessed at two concrete deliveries of the same three job deltas
in different orders with different gap samples. -/
theorem c9_cross_mode_witness :
    ([copiedOne 3, ignoredOne, errorsOne].Perm
        [errorsOne, copiedOne 3, ignoredOne] ∧
      ([10, 20, 30] : List Duration).length =
        [copiedOne 3, ignoredOne, errorsOne].length ∧
      ([7, 7, 7] : List Duration).length =
        [errorsOne, copiedOne 3, ignoredOne].length) ∧
    statEquivExceptTotal
      (schedRun ([copiedOne 3, ignoredOne, errorsOne].zip [10, 20, 30]))
      (schedRun ([errorsOne, copiedOne 3, ignoredOne].zip [7, 7, 7])) :=
  ⟨⟨by decide, rfl, rfl⟩,
   c9_cross_mode [copiedOne 3, ignoredOne, errorsOne]
     [errorsOne, copiedOne 3, ignoredOne] [10, 20, 30] [7, 7, 7]
     (by decide) rfl rfl⟩

end RawToImg
